import Mathlib

/-!
Verification of `gen_id_one_to_many` (`src/lib.rs`): a bidirectional
one-to-many relation between typed identifier families `Source` and
`Target`, stored as two sparse maps
  `targets : RawComponent<Source, HashSet<Id<Target>>>`
  `source  : RawComponent<Target, Option<Id<Source>>>`.

Identifiers are modelled by their index (`Nat`).  A `RawComponent<A, T>`
is a growable slot array keyed by the id's index; it is modelled as a
`List T`, where a slot is present exactly when its index is below the
list length.  The sparse-storage primitive itself lives in an external
crate; its operations (`get_mut`, `insert_with`, `remove`) are modelled
from the spec's description of the consumed capability (§6): `insert_with`
writes the slot at the given index, lazily filling every missing slot of
lower index with the supplied default; `get_mut` succeeds exactly on
present slots; `remove` on an `Option`-valued component takes the value
out of the slot (leaving `none`), returning `none` for an absent slot.

`HashSet<Id<Target>>` is modelled as `Finset Nat` (iteration order of a
drain is irrelevant here: the drained elements are pairwise distinct and
the per-element effects commute, so the result is characterised
pointwise, see `drainSources_getElem?`).
-/

namespace OneToManySpec

/-- The relation `OneToMany<Source, Target>` from `src/lib.rs`:
`targets` is the forward map (Source → set of Targets), `source` the
backward map (Target → optional owner). -/
structure OneToMany where
  targets : List (Finset Nat)
  source : List (Option Nat)
deriving DecidableEq

/-- `OneToMany::default()`: both maps empty. -/
def OneToMany.empty : OneToMany := ⟨[], []⟩

/-- `RawComponent::insert_with(id, value, fill)` (external sparse-storage
primitive, modelled from the spec §6): write `v` at index `i`, filling
any missing slots of index below `i` with `fill`. -/
def insertWith (l : List α) (i : Nat) (v : α) (fill : α) : List α :=
  if i < l.length then l.set i v
  else l ++ List.replicate (i - l.length) fill ++ [v]

/-- `RawComponent::<_, Option<_>>::remove(id)` (external sparse-storage
primitive, modelled from the spec §6): take the slot's value out,
leaving `none` behind; absent slot gives `none` and leaves the list
unchanged.  Returns the taken value and the updated list. -/
def optTake (l : List (Option α)) (i : Nat) : Option α × List (Option α) :=
  match l[i]? with
  | some v => (v, l.set i none)
  | none => (none, l)

/-- `OneToMany::unlink_inner` from `src/lib.rs`:
if `source.remove(target)` yields an owner `s`, remove `target` from
`targets[s]` (when that slot is present). -/
def unlink_inner (t : Nat) (st : OneToMany) : OneToMany :=
  match optTake st.source t with
  | (some s, src) =>
    match st.targets[s]? with
    | some set => { targets := st.targets.set s (set.erase t), source := src }
    | none => { targets := st.targets, source := src }
  | (none, src) => { targets := st.targets, source := src }

/-- `OneToMany::link_inner` from `src/lib.rs`:
first `unlink_inner target`, then `source.insert_with(target, Some source,
|| None)`, then insert `target` into `targets[source]`, creating that slot
as a fresh singleton set when absent (`insert_with(source, set, HashSet::new)`). -/
def link_inner (s : Nat) (t : Nat) (st : OneToMany) : OneToMany :=
  let st1 := unlink_inner t st
  { source := insertWith st1.source t (some s) none,
    targets :=
      match st1.targets[s]? with
      | some set => st1.targets.set s (insert t set)
      | none => insertWith st1.targets s ({t} : Finset Nat) ∅ }

/-- The `for target in targets.drain() { self.source.remove(target); }`
loop of `unlink_source_inner`, applied to one listed element after the
other. -/
def drainSources (ts : List Nat) (l : List (Option Nat)) :
    List (Option Nat) :=
  match ts with
  | [] => l
  | t :: rest => drainSources rest (optTake l t).2

/-- `OneToMany::unlink_source_inner` from `src/lib.rs`:
if `targets[source]` is present, drain it (removing each drained target's
back-reference); an absent slot is a no-op. -/
def unlink_source_inner (s : Nat) (st : OneToMany) : OneToMany :=
  match st.targets[s]? with
  | some set =>
    { targets := st.targets.set s ∅,
      source := drainSources (set.sort (fun a b => a ≤ b)) st.source }
  | none => st

/-- The read accessor `source()` observed at a target id, with the sparse
default: an absent slot reads as `none` (spec §3 invariant 4). -/
def source_of (st : OneToMany) (t : Nat) : Option Nat :=
  (st.source[t]?).getD none

/-- The read accessor `targets()` observed at a source id, with the sparse
default: an absent slot reads as the empty set (spec §3 invariant 4). -/
def targets_of (st : OneToMany) (s : Nat) : Finset Nat :=
  (st.targets[s]?).getD ∅

/-- Invariants 1 and 2 of spec §3: the two maps agree. -/
def Invariant (st : OneToMany) : Prop :=
  (∀ t s, source_of st t = some s → t ∈ targets_of st s) ∧
  (∀ s t, t ∈ targets_of st s → source_of st t = some s)

/-- A public mutation call of the relation. -/
inductive Op where
  | link (s : Nat) (t : Nat)
  | unlink (t : Nat)
  | unlinkSource (s : Nat)
deriving DecidableEq

/-- Apply one call to a state. -/
def applyOp (st : OneToMany) (op : Op) : OneToMany :=
  match op with
  | .link s t => link_inner s t st
  | .unlink t => unlink_inner t st
  | .unlinkSource s => unlink_source_inner s st

/-- Run a sequence of calls from a given state. -/
def runFrom (st : OneToMany) (ops : List Op) : OneToMany :=
  ops.foldl applyOp st

/-- Run a sequence of calls from the initially empty relation. -/
def run (ops : List Op) : OneToMany := runFrom OneToMany.empty ops

/-- Does this call mention `s` as a Source id? -/
def refsSource (op : Op) (s : Nat) : Bool :=
  match op with
  | .link s2 _ => s2 == s
  | .unlink _ => false
  | .unlinkSource s2 => s2 == s

/-- Does this call mention `t` as a Target id? -/
def refsTarget (op : Op) (t : Nat) : Bool :=
  match op with
  | .link _ t2 => t2 == t
  | .unlink t2 => t2 == t
  | .unlinkSource _ => false

/-! ### Checked variants: every slot access that could fail is made
fallible (`Option`), to state that no operation ever fails. -/

/-- A slot write that is only defined when the slot is present: models
writing through a reference into the sparse store, failing on a missing
slot. -/
def setChecked (l : List α) (i : Nat) (v : α) : Option (List α) :=
  if i < l.length then some (l.set i v) else none

/-- `optTake` with the slot write made fallible. -/
def optTakeChecked (l : List (Option α)) (i : Nat) :
    Option (Option α × List (Option α)) :=
  match l[i]? with
  | some v => (setChecked l i none).map (fun l2 => (v, l2))
  | none => some (none, l)

/-- `unlink_inner` with every slot write made fallible. -/
def unlink_checked (t : Nat) (st : OneToMany) : Option OneToMany :=
  match optTakeChecked st.source t with
  | none => none
  | some (some s, src) =>
    match st.targets[s]? with
    | some set =>
      (setChecked st.targets s (set.erase t)).map
        (fun tg => { targets := tg, source := src })
    | none => some { targets := st.targets, source := src }
  | some (none, src) => some { targets := st.targets, source := src }

/-- `link_inner` with every slot write made fallible. -/
def link_checked (s t : Nat) (st : OneToMany) : Option OneToMany :=
  (unlink_checked t st).bind (fun st1 =>
    match st1.targets[s]? with
    | some set =>
      (setChecked st1.targets s (insert t set)).map
        (fun tg2 =>
          { targets := tg2, source := insertWith st1.source t (some s) none })
    | none =>
      some { targets := insertWith st1.targets s ({t} : Finset Nat) ∅,
             source := insertWith st1.source t (some s) none })

/-- `drainSources` with every slot write made fallible. -/
def drainChecked (ts : List Nat) (l : List (Option Nat)) :
    Option (List (Option Nat)) :=
  match ts with
  | [] => some l
  | t :: rest => (optTakeChecked l t).bind (fun p => drainChecked rest p.2)

/-- `unlink_source_inner` with every slot write made fallible. -/
def unlinkSource_checked (s : Nat) (st : OneToMany) : Option OneToMany :=
  match st.targets[s]? with
  | some set =>
    (drainChecked (set.sort (fun a b => a ≤ b)) st.source).bind (fun src =>
      (setChecked st.targets s ∅).map (fun tg => { targets := tg, source := src }))
  | none => some st

/-! ### Pointwise characterisation of the sparse-storage primitives -/

theorem length_insertWith (l : List α) (i : Nat) (v fill : α) :
    (insertWith l i v fill).length = max l.length (i + 1) := by
  unfold insertWith
  split
  · simp; omega
  · simp; omega

theorem getElem?_insertWith (l : List α) (i j : Nat) (v fill : α) :
    (insertWith l i v fill)[j]? =
      if j = i then some v
      else if j < l.length then l[j]?
      else if j < i then some fill
      else none := by
  unfold insertWith
  by_cases hi : i < l.length
  · rw [if_pos hi, List.getElem?_set]
    by_cases hji : j = i
    · subst hji
      simp [hi]
    · rw [if_neg (by omega), if_neg hji]
      by_cases hjl : j < l.length
      · rw [if_pos hjl]
      · rw [if_neg hjl, if_neg (by omega)]
        exact List.getElem?_eq_none (by omega)
  · rw [if_neg hi, List.getElem?_append, List.getElem?_append]
    simp only [List.length_append, List.length_replicate, List.getElem?_replicate]
    by_cases hjl : j < l.length
    · rw [if_pos (by omega), if_pos hjl, if_neg (by omega), if_pos hjl]
    · by_cases hji : j = i
      · rw [if_neg (by omega), show j - (l.length + (i - l.length)) = 0 from by omega,
          if_pos hji]
        rfl
      · by_cases hjlt : j < i
        · rw [if_pos (by omega), if_neg hjl, if_pos (by omega), if_neg hji, if_neg hjl,
            if_pos hjlt]
        · rw [if_neg (by omega), if_neg hji, if_neg hjl, if_neg hjlt]
          exact List.getElem?_eq_none (by simp; omega)

theorem optTake_fst (l : List (Option α)) (i : Nat) :
    (optTake l i).1 = (l[i]?).getD none := by
  unfold optTake
  cases h : l[i]? <;> simp [h]

theorem length_optTake_snd (l : List (Option α)) (i : Nat) :
    (optTake l i).2.length = l.length := by
  unfold optTake
  cases h : l[i]? <;> simp [h]

theorem getElem?_optTake_snd (l : List (Option α)) (i j : Nat) :
    (optTake l i).2[j]? = if j = i ∧ i < l.length then some none else l[j]? := by
  unfold optTake
  cases h : l[i]? with
  | none =>
    have hlen : l.length ≤ i := List.getElem?_eq_none_iff.mp h
    simp only
    split_ifs with hc
    · omega
    · rfl
  | some v =>
    have hlen : i < l.length := (List.getElem?_eq_some.mp h).1
    simp only [List.getElem?_set]
    by_cases hij : i = j
    · rw [if_pos hij, if_pos hlen, if_pos ⟨hij.symm, hlen⟩]
    · rw [if_neg hij, if_neg (fun hc => hij hc.1.symm)]

theorem length_drainSources (ts : List Nat) (l : List (Option Nat)) :
    (drainSources ts l).length = l.length := by
  induction ts generalizing l with
  | nil => rfl
  | cons t rest ih => rw [drainSources, ih, length_optTake_snd]

theorem getElem?_drainSources (ts : List Nat) (l : List (Option Nat)) (j : Nat) :
    (drainSources ts l)[j]? = if j ∈ ts ∧ j < l.length then some none else l[j]? := by
  induction ts generalizing l with
  | nil => simp [drainSources]
  | cons t rest ih =>
    rw [drainSources, ih, length_optTake_snd, getElem?_optTake_snd]
    by_cases hm : j ∈ rest <;> by_cases hl : j < l.length <;>
      by_cases ht : j = t <;> simp [hm, hl, ht] <;>
      (intro _ h2; rw [if_pos h2])

theorem set_getElem?_self (l : List α) (i : Nat) (v : α) (h : l[i]? = some v) :
    l.set i v = l := by
  apply List.ext_getElem?
  intro j
  rw [List.getElem?_set]
  split_ifs with h1 h2
  · subst h1; exact h.symm
  · exact absurd (List.getElem?_eq_some.mp h).1 h2
  · rfl

/-! ### Characterisation of the three mutations through the accessors -/

theorem unlink_inner_eq (t : Nat) (st : OneToMany) :
    unlink_inner t st =
      match st.source[t]? with
      | some (some s) =>
        { targets :=
            match st.targets[s]? with
            | some set => st.targets.set s (set.erase t)
            | none => st.targets,
          source := st.source.set t none }
      | some none => { targets := st.targets, source := st.source.set t none }
      | none => { targets := st.targets, source := st.source } := by
  unfold unlink_inner optTake
  cases h : st.source[t]? with
  | none => rfl
  | some v =>
    cases v with
    | none => rfl
    | some s0 => cases h2 : st.targets[s0]? <;> simp [h2]

theorem length_source_unlink (t : Nat) (st : OneToMany) :
    (unlink_inner t st).source.length = st.source.length := by
  rw [unlink_inner_eq]
  cases h : st.source[t]? with
  | none => rfl
  | some v => cases v <;> simp

theorem getElem?_source_unlink (t : Nat) (st : OneToMany) (u : Nat)
    (h : u ≠ t) : (unlink_inner t st).source[u]? = st.source[u]? := by
  rw [unlink_inner_eq]
  cases h2 : st.source[t]? with
  | none => rfl
  | some v =>
    cases v <;> simp only [List.getElem?_set] <;>
      rw [if_neg (fun hc => h hc.symm)]

theorem source_of_unlink (t : Nat) (st : OneToMany) (u : Nat) :
    source_of (unlink_inner t st) u = if u = t then none else source_of st u := by
  by_cases hut : u = t
  · subst hut
    rw [if_pos rfl]
    unfold source_of
    rw [unlink_inner_eq]
    cases h : st.source[u]? with
    | none => simp [source_of, h]
    | some v =>
      have hlen := (List.getElem?_eq_some.mp h).1
      cases v <;> simp [List.getElem?_set, hlen]
  · rw [if_neg hut]
    unfold source_of
    rw [getElem?_source_unlink t st u hut]

theorem targets_of_unlink (t : Nat) (st : OneToMany) (s : Nat) :
    targets_of (unlink_inner t st) s =
      if source_of st t = some s then (targets_of st s).erase t
      else targets_of st s := by
  unfold targets_of source_of
  rw [unlink_inner_eq]
  cases h : st.source[t]? with
  | none => simp
  | some v =>
    cases v with
    | none => simp
    | some s0 =>
      simp only [Option.getD_some]
      cases hts : st.targets[s0]? with
      | none =>
        by_cases hss : s0 = s
        · subst hss
          simp [hts]
        · simp [hss]
      | some set =>
        have hlen := (List.getElem?_eq_some.mp hts).1
        by_cases hss : s0 = s
        · subst hss
          simp [hts, List.getElem?_set, hlen]
        · simp only [List.getElem?_set]
          rw [if_neg hss]
          simp [Option.some_inj, hss]

theorem link_inner_source (s : Nat) (t : Nat) (st : OneToMany) :
    (link_inner s t st).source = insertWith (unlink_inner t st).source t (some s) none :=
  rfl

theorem source_of_link (s : Nat) (t : Nat) (st : OneToMany) (u : Nat) :
    source_of (link_inner s t st) u = if u = t then some s else source_of st u := by
  unfold source_of
  rw [link_inner_source, getElem?_insertWith]
  by_cases hut : u = t
  · simp [hut]
  · rw [if_neg hut]
    by_cases hlt : u < (unlink_inner t st).source.length
    · rw [if_pos hlt, getElem?_source_unlink t st u hut, if_neg hut]
    · rw [if_neg hlt]
      have hsl : st.source.length ≤ u := by
        have := length_source_unlink t st
        omega
      rw [List.getElem?_eq_none hsl, if_neg hut]
      split_ifs <;> rfl

theorem targets_of_link (s : Nat) (t : Nat) (st : OneToMany) (s2 : Nat) :
    targets_of (link_inner s t st) s2 =
      if s2 = s then insert t (targets_of (unlink_inner t st) s)
      else targets_of (unlink_inner t st) s2 := by
  unfold targets_of link_inner
  simp only
  cases hts : (unlink_inner t st).targets[s]? with
  | some set =>
    have hlen := (List.getElem?_eq_some.mp hts).1
    simp only [List.getElem?_set]
    by_cases hss : s2 = s
    · subst hss
      simp [hts, hlen]
    · rw [if_neg (fun hc => hss hc.symm), if_neg hss]
  | none =>
    have hlen : (unlink_inner t st).targets.length ≤ s := List.getElem?_eq_none_iff.mp hts
    rw [getElem?_insertWith]
    by_cases hss : s2 = s
    · subst hss
      simp [hts]
    · rw [if_neg hss, if_neg hss]
      by_cases hlt : s2 < (unlink_inner t st).targets.length
      · rw [if_pos hlt]
      · rw [if_neg hlt,
          List.getElem?_eq_none (show (unlink_inner t st).targets.length ≤ s2 from by omega)]
        split_ifs <;> rfl

theorem insert_erase_self (a : Nat) (s : Finset Nat) :
    insert a (s.erase a) = insert a s := by
  ext x
  by_cases hx : x = a <;> simp [hx]

theorem targets_of_link_eq (s : Nat) (t : Nat) (st : OneToMany) (s2 : Nat) :
    targets_of (link_inner s t st) s2 =
      if s2 = s then insert t (targets_of st s)
      else if source_of st t = some s2 then (targets_of st s2).erase t
      else targets_of st s2 := by
  rw [targets_of_link, targets_of_unlink, targets_of_unlink]
  by_cases hss : s2 = s
  · subst hss
    rw [if_pos rfl, if_pos rfl]
    split_ifs with h
    · exact insert_erase_self t (targets_of st s2)
    · rfl
  · rw [if_neg hss, if_neg hss]

theorem targets_of_unlinkSource (s : Nat) (st : OneToMany) (s2 : Nat) :
    targets_of (unlink_source_inner s st) s2 =
      if s2 = s then ∅ else targets_of st s2 := by
  unfold targets_of unlink_source_inner
  cases h : st.targets[s]? with
  | none =>
    by_cases hss : s2 = s
    · subst hss; simp [h]
    · rw [if_neg hss]
  | some set =>
    have hlen := (List.getElem?_eq_some.mp h).1
    simp only [List.getElem?_set]
    by_cases hss : s2 = s
    · subst hss; simp [hlen]
    · rw [if_neg (fun hc => hss hc.symm), if_neg hss]

theorem source_of_unlinkSource (s : Nat) (st : OneToMany) (u : Nat) :
    source_of (unlink_source_inner s st) u =
      if u ∈ targets_of st s then none else source_of st u := by
  unfold source_of unlink_source_inner targets_of
  cases h : st.targets[s]? with
  | none => simp
  | some set =>
    simp only [Option.getD_some, getElem?_drainSources]
    by_cases hmem : u ∈ set
    · rw [if_pos hmem]
      by_cases hlt : u < st.source.length
      · rw [if_pos ⟨(Finset.mem_sort _).mpr hmem, hlt⟩]
        rfl
      · rw [if_neg (fun hc => hlt hc.2),
          List.getElem?_eq_none (show st.source.length ≤ u from by omega)]
        rfl
    · rw [if_neg hmem,
        if_neg (fun hc => hmem ((Finset.mem_sort _).mp hc.1))]

/-! ### Structural no-op lemmas -/

theorem unlink_noop (t : Nat) (st : OneToMany) (h : source_of st t = none) :
    unlink_inner t st = st := by
  rw [unlink_inner_eq]
  unfold source_of at h
  cases hsrc : st.source[t]? with
  | none => rfl
  | some v =>
    rw [hsrc] at h
    simp only [Option.getD_some] at h
    subst h
    show ({ targets := st.targets, source := st.source.set t none } : OneToMany) = st
    rw [set_getElem?_self st.source t none hsrc]

theorem unlink_unlink (t : Nat) (st : OneToMany) :
    unlink_inner t (unlink_inner t st) = unlink_inner t st :=
  unlink_noop t _ (by rw [source_of_unlink]; simp)

/-! ### Invariant preservation -/

theorem invariant_unlink (t : Nat) (st : OneToMany) (h : Invariant st) :
    Invariant (unlink_inner t st) := by
  obtain ⟨h1, h2⟩ := h
  constructor
  · intro u s hs
    rw [source_of_unlink] at hs
    by_cases hut : u = t
    · rw [if_pos hut] at hs
      exact absurd hs (by simp)
    · rw [if_neg hut] at hs
      rw [targets_of_unlink]
      split_ifs with hc
      · exact Finset.mem_erase.mpr ⟨hut, h1 u s hs⟩
      · exact h1 u s hs
  · intro s u hu
    rw [targets_of_unlink] at hu
    rw [source_of_unlink]
    split_ifs at hu with hc
    · obtain ⟨hne, hmem⟩ := Finset.mem_erase.mp hu
      rw [if_neg hne]
      exact h2 s u hmem
    · have hsrc := h2 s u hu
      by_cases hut : u = t
      · subst hut
        exact absurd hsrc hc
      · rw [if_neg hut]
        exact hsrc

theorem invariant_link (s t : Nat) (st : OneToMany) (h : Invariant st) :
    Invariant (link_inner s t st) := by
  obtain ⟨h1, h2⟩ := h
  constructor
  · intro u s2 hs
    rw [source_of_link] at hs
    rw [targets_of_link_eq]
    by_cases hut : u = t
    · rw [if_pos hut] at hs
      injection hs with hss
      subst hss
      subst hut
      rw [if_pos rfl]
      exact Finset.mem_insert_self u _
    · rw [if_neg hut] at hs
      split_ifs with hc1 hc2
      · subst hc1
        exact Finset.mem_insert_of_mem (h1 u s2 hs)
      · exact Finset.mem_erase.mpr ⟨hut, h1 u s2 hs⟩
      · exact h1 u s2 hs
  · intro s2 u hu
    rw [targets_of_link_eq] at hu
    rw [source_of_link]
    by_cases hut : u = t
    · subst hut
      rw [if_pos rfl]
      split_ifs at hu with hc1 hc2
      · rw [hc1]
      · exact absurd (Finset.mem_erase.mp hu).1 (by simp)
      · exact absurd (h2 s2 u hu) hc2
    · rw [if_neg hut]
      split_ifs at hu with hc1 hc2
      · subst hc1
        rcases Finset.mem_insert.mp hu with h' | h'
        · exact absurd h' hut
        · exact h2 _ u h'
      · exact h2 s2 u (Finset.mem_erase.mp hu).2
      · exact h2 s2 u hu

theorem invariant_unlinkSource (s : Nat) (st : OneToMany) (h : Invariant st) :
    Invariant (unlink_source_inner s st) := by
  obtain ⟨h1, h2⟩ := h
  constructor
  · intro u s2 hs
    rw [source_of_unlinkSource] at hs
    rw [targets_of_unlinkSource]
    split_ifs at hs with hc
    split_ifs with hss
    · subst hss
      exact absurd (h1 u s2 hs) hc
    · exact h1 u s2 hs
  · intro s2 u hu
    rw [targets_of_unlinkSource] at hu
    rw [source_of_unlinkSource]
    split_ifs at hu with hss
    · exact absurd hu (Finset.not_mem_empty u)
    · have hsrc := h2 s2 u hu
      split_ifs with hc
      · have h' := h2 s u hc
        rw [hsrc] at h'
        exact absurd (Option.some_inj.mp h') hss
      · exact hsrc

theorem invariant_applyOp (st : OneToMany) (op : Op) (h : Invariant st) :
    Invariant (applyOp st op) := by
  cases op with
  | link s t => exact invariant_link s t st h
  | unlink t => exact invariant_unlink t st h
  | unlinkSource s => exact invariant_unlinkSource s st h

theorem invariant_empty : Invariant OneToMany.empty := by
  constructor
  · intro t s hs
    simp [source_of, OneToMany.empty] at hs
  · intro s t ht
    simp [targets_of, OneToMany.empty] at ht

theorem invariant_runFrom (st : OneToMany) (ops : List Op) (h : Invariant st) :
    Invariant (runFrom st ops) := by
  induction ops generalizing st with
  | nil => exact h
  | cons op rest ih => exact ih (applyOp st op) (invariant_applyOp st op h)

theorem optTakeChecked_eq (l : List (Option α)) (i : Nat) :
    optTakeChecked l i = some (optTake l i) := by
  unfold optTakeChecked optTake setChecked
  cases h : l[i]? with
  | none => rfl
  | some v =>
    rw [if_pos (List.getElem?_eq_some.mp h).1]
    rfl

theorem unlink_checked_eq (t : Nat) (st : OneToMany) :
    unlink_checked t st = some (unlink_inner t st) := by
  unfold unlink_checked
  rw [optTakeChecked_eq]
  unfold unlink_inner optTake
  cases h : st.source[t]? with
  | none => rfl
  | some v =>
    cases v with
    | none => rfl
    | some s0 =>
      cases h2 : st.targets[s0]? with
      | none => simp [h2]
      | some set => simp [setChecked, h2, (List.getElem?_eq_some.mp h2).1]

theorem link_checked_eq (s t : Nat) (st : OneToMany) :
    link_checked s t st = some (link_inner s t st) := by
  unfold link_checked link_inner
  rw [unlink_checked_eq]
  cases h : (unlink_inner t st).targets[s]? with
  | none => simp [h]
  | some set => simp [setChecked, h, (List.getElem?_eq_some.mp h).1]

theorem drainChecked_eq (ts : List Nat) (l : List (Option Nat)) :
    drainChecked ts l = some (drainSources ts l) := by
  induction ts generalizing l with
  | nil => rfl
  | cons t rest ih =>
    rw [drainChecked, optTakeChecked_eq]
    exact ih (optTake l t).2

theorem unlinkSource_checked_eq (s : Nat) (st : OneToMany) :
    unlinkSource_checked s st = some (unlink_source_inner s st) := by
  unfold unlinkSource_checked unlink_source_inner
  cases h : st.targets[s]? with
  | none => rfl
  | some set =>
    simp [drainChecked_eq, setChecked, (List.getElem?_eq_some.mp h).1]

/-! ### Structural computation helpers -/

theorem OneToMany.ext {x y : OneToMany} (h1 : x.targets = y.targets)
    (h2 : x.source = y.source) : x = y := by
  cases x
  cases y
  subst h1
  subst h2
  rfl

theorem insertWith_lt (l : List α) (i : Nat) (v fill : α) (h : i < l.length) :
    insertWith l i v fill = l.set i v := by
  unfold insertWith
  rw [if_pos h]

theorem link_source_getElem?_self (s t : Nat) (st : OneToMany) :
    (link_inner s t st).source[t]? = some (some s) := by
  rw [link_inner_source, getElem?_insertWith, if_pos rfl]

theorem link_targets_getElem?_self (s t : Nat) (st : OneToMany) :
    (link_inner s t st).targets[s]? =
      some (insert t (targets_of (unlink_inner t st) s)) := by
  unfold link_inner targets_of
  simp only
  cases hts : (unlink_inner t st).targets[s]? with
  | some set =>
    rw [List.getElem?_set, if_pos rfl, if_pos (List.getElem?_eq_some.mp hts).1]
    simp
  | none =>
    rw [getElem?_insertWith, if_pos rfl]
    simp

theorem length_targets_unlink (t : Nat) (st : OneToMany) :
    (unlink_inner t st).targets.length = st.targets.length := by
  rw [unlink_inner_eq]
  cases h : st.source[t]? with
  | none => rfl
  | some v =>
    cases v with
    | none => rfl
    | some s0 => cases h2 : st.targets[s0]? <;> simp [h2]

theorem length_targets_link (s t : Nat) (st : OneToMany) :
    (link_inner s t st).targets.length = max st.targets.length (s + 1) := by
  unfold link_inner
  simp only
  cases hts : (unlink_inner t st).targets[s]? with
  | some set =>
    have hlen := (List.getElem?_eq_some.mp hts).1
    rw [List.length_set, length_targets_unlink]
    have := length_targets_unlink t st
    omega
  | none =>
    rw [length_insertWith, length_targets_unlink]

theorem length_source_link (s t : Nat) (st : OneToMany) :
    (link_inner s t st).source.length = max st.source.length (t + 1) := by
  rw [link_inner_source, length_insertWith, length_source_unlink]

theorem unlink_inner_of_known (t s0 : Nat) (st : OneToMany) (set : Finset Nat)
    (hs : st.source[t]? = some (some s0)) (ht : st.targets[s0]? = some set) :
    unlink_inner t st =
      { targets := st.targets.set s0 (set.erase t),
        source := st.source.set t none } := by
  rw [unlink_inner_eq, hs]
  simp [ht]

theorem link_inner_of_present (s t : Nat) (st : OneToMany) (set : Finset Nat)
    (ht : (unlink_inner t st).targets[s]? = some set) :
    link_inner s t st =
      { targets := (unlink_inner t st).targets.set s (insert t set),
        source := insertWith (unlink_inner t st).source t (some s) none } := by
  unfold link_inner
  simp [ht]

theorem link_link_self (s t : Nat) (st : OneToMany) :
    link_inner s t (link_inner s t st) = link_inner s t st := by
  have hsrc := link_source_getElem?_self s t st
  have htgt := link_targets_getElem?_self s t st
  have hslen : t < (link_inner s t st).source.length :=
    (List.getElem?_eq_some.mp hsrc).1
  have htlen : s < (link_inner s t st).targets.length :=
    (List.getElem?_eq_some.mp htgt).1
  have hB := unlink_inner_of_known t s (link_inner s t st) _ hsrc htgt
  have hBt : (unlink_inner t (link_inner s t st)).targets[s]? =
      some ((insert t (targets_of (unlink_inner t st) s)).erase t) := by
    rw [hB]
    show ((link_inner s t st).targets.set s _)[s]? = _
    rw [List.getElem?_set, if_pos rfl, if_pos htlen]
  rw [link_inner_of_present s t _ _ hBt, hB]
  apply OneToMany.ext
  · show ((link_inner s t st).targets.set s _).set s
        (insert t ((insert t (targets_of (unlink_inner t st) s)).erase t)) =
      (link_inner s t st).targets
    rw [insert_erase_self, Finset.insert_idem, List.set_set]
    exact set_getElem?_self _ s _ htgt
  · show insertWith ((link_inner s t st).source.set t none) t (some s) none =
      (link_inner s t st).source
    rw [insertWith_lt _ _ _ _ (by simpa using hslen), List.set_set]
    exact set_getElem?_self _ t _ hsrc

theorem unlinkSource_noop (s : Nat) (st : OneToMany) (h : targets_of st s = ∅) :
    unlink_source_inner s st = st := by
  unfold unlink_source_inner
  cases hts : st.targets[s]? with
  | none => rfl
  | some set =>
    have hset : set = ∅ := by
      unfold targets_of at h
      rw [hts] at h
      simpa using h
    subst hset
    show ({ targets := st.targets.set s ∅,
            source := drainSources (Finset.sort (fun a b => a ≤ b) ∅) st.source } :
      OneToMany) = st
    apply OneToMany.ext
    · exact set_getElem?_self st.targets s ∅ hts
    · rw [Finset.sort_empty]
      rfl

/-! ### Sparse-default and lazy-fill helpers -/

theorem targets_of_empty (s : Nat) : targets_of OneToMany.empty s = ∅ := by
  simp [targets_of, OneToMany.empty]

theorem source_of_empty (t : Nat) : source_of OneToMany.empty t = none := by
  simp [source_of, OneToMany.empty]

theorem targets_of_applyOp_not_refd (st : OneToMany) (op : Op) (s : Nat)
    (hop : refsSource op s = false) (h : targets_of st s = ∅) :
    targets_of (applyOp st op) s = ∅ := by
  cases op with
  | link s2 t2 =>
    have hne : ¬ s = s2 := fun hc => (beq_eq_false_iff_ne.mp hop) hc.symm
    show targets_of (link_inner s2 t2 st) s = ∅
    rw [targets_of_link_eq, if_neg hne]
    split_ifs with hc
    · rw [h, Finset.erase_empty]
    · exact h
  | unlink t2 =>
    show targets_of (unlink_inner t2 st) s = ∅
    rw [targets_of_unlink]
    split_ifs with hc
    · rw [h, Finset.erase_empty]
    · exact h
  | unlinkSource s2 =>
    have hne : ¬ s = s2 := fun hc => (beq_eq_false_iff_ne.mp hop) hc.symm
    show targets_of (unlink_source_inner s2 st) s = ∅
    rw [targets_of_unlinkSource, if_neg hne]
    exact h

theorem source_of_applyOp_not_refd (st : OneToMany) (op : Op) (t : Nat)
    (hop : refsTarget op t = false) (h : source_of st t = none) :
    source_of (applyOp st op) t = none := by
  cases op with
  | link s2 t2 =>
    have hne : ¬ t = t2 := fun hc => (beq_eq_false_iff_ne.mp hop) hc.symm
    show source_of (link_inner s2 t2 st) t = none
    rw [source_of_link, if_neg hne]
    exact h
  | unlink t2 =>
    have hne : ¬ t = t2 := fun hc => (beq_eq_false_iff_ne.mp hop) hc.symm
    show source_of (unlink_inner t2 st) t = none
    rw [source_of_unlink, if_neg hne]
    exact h
  | unlinkSource s2 =>
    show source_of (unlink_source_inner s2 st) t = none
    rw [source_of_unlinkSource]
    split_ifs with hc
    · rfl
    · exact h

theorem targets_of_runFrom_not_refd (st : OneToMany) (ops : List Op) (s : Nat)
    (hops : ∀ op ∈ ops, refsSource op s = false) (h : targets_of st s = ∅) :
    targets_of (runFrom st ops) s = ∅ := by
  induction ops generalizing st with
  | nil => exact h
  | cons op rest ih =>
    exact ih (applyOp st op) (fun o ho => hops o (List.mem_cons_of_mem op ho))
      (targets_of_applyOp_not_refd st op s (hops op (List.mem_cons_self op rest)) h)

theorem source_of_runFrom_not_refd (st : OneToMany) (ops : List Op) (t : Nat)
    (hops : ∀ op ∈ ops, refsTarget op t = false) (h : source_of st t = none) :
    source_of (runFrom st ops) t = none := by
  induction ops generalizing st with
  | nil => exact h
  | cons op rest ih =>
    exact ih (applyOp st op) (fun o ho => hops o (List.mem_cons_of_mem op ho))
      (source_of_applyOp_not_refd st op t (hops op (List.mem_cons_self op rest)) h)

theorem getElem?_targets_link_low (s t j : Nat) (st : OneToMany)
    (hj : j < s) (hnone : st.targets[j]? = none) :
    (link_inner s t st).targets[j]? = some ∅ := by
  have hlen : st.targets.length ≤ j := List.getElem?_eq_none_iff.mp hnone
  have hlen1 : (unlink_inner t st).targets.length ≤ j := by
    rw [length_targets_unlink]
    exact hlen
  unfold link_inner
  simp only
  cases hts : (unlink_inner t st).targets[s]? with
  | some set =>
    have := (List.getElem?_eq_some.mp hts).1
    omega
  | none =>
    rw [getElem?_insertWith, if_neg (show ¬ j = s from by omega),
      if_neg (show ¬ j < (unlink_inner t st).targets.length from by omega),
      if_pos hj]

theorem getElem?_source_link_low (s t j : Nat) (st : OneToMany)
    (hj : j < t) (hnone : st.source[j]? = none) :
    (link_inner s t st).source[j]? = some none := by
  have hlen : st.source.length ≤ j := List.getElem?_eq_none_iff.mp hnone
  have hlen1 : (unlink_inner t st).source.length ≤ j := by
    rw [length_source_unlink]
    exact hlen
  rw [link_inner_source, getElem?_insertWith,
    if_neg (show ¬ j = t from by omega),
    if_neg (show ¬ j < (unlink_inner t st).source.length from by omega),
    if_pos hj]

/-! ### The claims -/

/-- C1: for every sequence of `link`/`unlink`/`unlink_source` calls applied to
the initially empty relation, after every call the two maps agree: whenever
`source[t] = some s`, `t ∈ targets[s]`, and whenever `t ∈ targets[s]`,
`source[t] = some s`.  (Every "state after a call" is `run ops` for the list
of calls made so far, so quantifying over all `ops` covers every prefix.) -/
theorem run_preserves_invariant (ops : List Op) : Invariant (run ops) :=
  invariant_runFrom OneToMany.empty ops invariant_empty

/-- C2: from any state, after `link s1 t` then `link s2 t` with `s1 ≠ s2`,
the owner recorded for `t` is `s2`, `t` is not in the target set of `s1`,
and `t` is in the target set of `s2`. -/
theorem single_owner_after_relink (st : OneToMany) (s1 s2 t : Nat)
    (h : s1 ≠ s2) :
    source_of (link_inner s2 t (link_inner s1 t st)) t = some s2 ∧
    t ∉ targets_of (link_inner s2 t (link_inner s1 t st)) s1 ∧
    t ∈ targets_of (link_inner s2 t (link_inner s1 t st)) s2 := by
  refine ⟨?_, ?_, ?_⟩
  · rw [source_of_link, if_pos rfl]
  · rw [targets_of_link_eq, if_neg h, source_of_link,
      if_pos rfl, if_pos rfl]
    exact Finset.not_mem_erase t _
  · rw [targets_of_link_eq, if_pos rfl]
    exact Finset.mem_insert_self t _

theorem single_owner_after_relink_witness :
    (0 : Nat) ≠ 1 ∧
    source_of (link_inner 1 0 (link_inner 0 0 OneToMany.empty)) 0 = some 1 ∧
    0 ∉ targets_of (link_inner 1 0 (link_inner 0 0 OneToMany.empty)) 0 ∧
    0 ∈ targets_of (link_inner 1 0 (link_inner 0 0 OneToMany.empty)) 1 :=
  ⟨by decide, single_owner_after_relink OneToMany.empty 0 1 0 (by decide)⟩

/-- C3: calling `link s t` twice in a row from any state yields a state
identical to calling it once; in particular, from the empty relation both
calls leave `targets_of s = {t}` and `source_of t = some s`. -/
theorem relink_idempotent (st : OneToMany) (s t : Nat) :
    link_inner s t (link_inner s t st) = link_inner s t st ∧
    targets_of (link_inner s t (link_inner s t OneToMany.empty)) s = {t} ∧
    source_of (link_inner s t (link_inner s t OneToMany.empty)) t = some s := by
  refine ⟨link_link_self s t st, ?_, ?_⟩
  · rw [link_link_self, targets_of_link_eq, if_pos rfl, targets_of_empty]
    ext x
    simp
  · rw [link_link_self, source_of_link, if_pos rfl]

/-- C4: `unlink_source s` clears the back-reference of every target owned by
`s` and empties the target set of `s`; when `s` has no targets it is a
structural no-op; in particular linking `s0` to `t0` and `t1` and cascading
clears both back-references and empties `targets_of s0`. -/
theorem unlink_source_cascade (st : OneToMany) (s : Nat) :
    (∀ t ∈ targets_of st s, source_of (unlink_source_inner s st) t = none) ∧
    targets_of (unlink_source_inner s st) s = ∅ ∧
    (targets_of st s = ∅ → unlink_source_inner s st = st) ∧
    (∀ s0 t0 t1,
      source_of
        (unlink_source_inner s0 (link_inner s0 t1 (link_inner s0 t0 st))) t0 =
          none ∧
      source_of
        (unlink_source_inner s0 (link_inner s0 t1 (link_inner s0 t0 st))) t1 =
          none ∧
      targets_of
        (unlink_source_inner s0 (link_inner s0 t1 (link_inner s0 t0 st))) s0 =
          ∅) := by
  refine ⟨?_, ?_, unlinkSource_noop s st, ?_⟩
  · intro t ht
    rw [source_of_unlinkSource, if_pos ht]
  · rw [targets_of_unlinkSource, if_pos rfl]
  · intro s0 t0 t1
    have hmem0 : t0 ∈ targets_of (link_inner s0 t1 (link_inner s0 t0 st)) s0 := by
      rw [targets_of_link_eq, if_pos rfl, targets_of_link_eq, if_pos rfl]
      exact Finset.mem_insert_of_mem (Finset.mem_insert_self t0 _)
    have hmem1 : t1 ∈ targets_of (link_inner s0 t1 (link_inner s0 t0 st)) s0 := by
      rw [targets_of_link_eq, if_pos rfl]
      exact Finset.mem_insert_self t1 _
    refine ⟨?_, ?_, ?_⟩
    · rw [source_of_unlinkSource, if_pos hmem0]
    · rw [source_of_unlinkSource, if_pos hmem1]
    · rw [targets_of_unlinkSource, if_pos rfl]

theorem unlink_source_cascade_witness :
    (source_of (unlink_source_inner 0 (link_inner 0 1 (link_inner 0 0
        OneToMany.empty))) 0 = none ∧
      source_of (unlink_source_inner 0 (link_inner 0 1 (link_inner 0 0
        OneToMany.empty))) 1 = none ∧
      targets_of (unlink_source_inner 0 (link_inner 0 1 (link_inner 0 0
        OneToMany.empty))) 0 = ∅) ∧
    targets_of OneToMany.empty 5 = ∅ ∧
    unlink_source_inner 5 OneToMany.empty = OneToMany.empty :=
  ⟨(unlink_source_cascade OneToMany.empty 0).2.2.2 0 0 1, by decide,
    (unlink_source_cascade OneToMany.empty 5).2.2.1 (by decide)⟩

/-- C5: from the empty relation, a Source id never referenced by any call in
the sequence reads as the empty target set, and a Target id never referenced
reads as no owner — sparse absence is observationally an explicit
empty-set/none. -/
theorem sparse_default_reads (ops : List Op) (s t : Nat)
    (hs : ∀ op ∈ ops, refsSource op s = false)
    (ht : ∀ op ∈ ops, refsTarget op t = false) :
    targets_of (run ops) s = ∅ ∧ source_of (run ops) t = none :=
  ⟨targets_of_runFrom_not_refd OneToMany.empty ops s hs (targets_of_empty s),
    source_of_runFrom_not_refd OneToMany.empty ops t ht (source_of_empty t)⟩

theorem sparse_default_reads_witness :
    (∀ op ∈ [Op.link 1 0], refsSource op 0 = false) ∧
    (∀ op ∈ [Op.link 1 0], refsTarget op 1 = false) ∧
    targets_of (run [Op.link 1 0]) 0 = ∅ ∧
    source_of (run [Op.link 1 0]) 1 = none := by
  have h := sparse_default_reads [Op.link 1 0] 0 1 (by decide) (by decide)
  exact ⟨by decide, by decide, h.1, h.2⟩

/-- C6: every mutation is total: the checked variants, in which every slot
write through the sparse store is fallible, never fail, and return exactly
the state the total functions compute — for every state and all ids,
including never-seen ids and all degenerate cases. -/
theorem operations_total (st : OneToMany) (s t : Nat) :
    link_checked s t st = some (link_inner s t st) ∧
    unlink_checked t st = some (unlink_inner t st) ∧
    unlinkSource_checked s st = some (unlink_source_inner s st) :=
  ⟨link_checked_eq s t st, unlink_checked_eq t st, unlinkSource_checked_eq s st⟩

/-- C7: unlinking a target that currently has no owner (including ids never
linked) leaves the state structurally unchanged, and does not fail. -/
theorem unlink_unknown_noop (st : OneToMany) (t : Nat)
    (h : source_of st t = none) :
    unlink_inner t st = st ∧ unlink_checked t st = some st := by
  refine ⟨unlink_noop t st h, ?_⟩
  rw [unlink_checked_eq, unlink_noop t st h]

theorem unlink_unknown_noop_witness :
    source_of OneToMany.empty 7 = none ∧
    unlink_inner 7 OneToMany.empty = OneToMany.empty ∧
    unlink_checked 7 OneToMany.empty = some OneToMany.empty := by
  have h := unlink_unknown_noop OneToMany.empty 7 (by decide)
  exact ⟨by decide, h.1, h.2⟩

/-- C8: `link s t` first fully tears down any prior linkage of `t`: the state
after `link s t` equals the state after `unlink t` followed by `link s t`. -/
theorem link_tears_down_then_links (s t : Nat) (st : OneToMany) :
    link_inner s t st = link_inner s t (unlink_inner t st) := by
  unfold link_inner
  rw [unlink_unlink]

/-- C9: on an invariant-satisfying state, `unlink t` clears the
back-reference of `t`, removes `t` from its owner's target set, and changes
nothing else: every other target keeps its owner and every source whose id is
not `t`'s owner keeps its target set; afterwards no target set contains `t`. -/
theorem unlink_frame (st : OneToMany) (t : Nat) (hinv : Invariant st) :
    (∀ u, u ≠ t → source_of (unlink_inner t st) u = source_of st u) ∧
    source_of (unlink_inner t st) t = none ∧
    (∀ s, source_of st t = some s →
      targets_of (unlink_inner t st) s = (targets_of st s).erase t) ∧
    (∀ s, source_of st t ≠ some s →
      targets_of (unlink_inner t st) s = targets_of st s) ∧
    (∀ s, t ∉ targets_of (unlink_inner t st) s) := by
  refine ⟨?_, ?_, ?_, ?_, ?_⟩
  · intro u hu
    rw [source_of_unlink, if_neg hu]
  · rw [source_of_unlink, if_pos rfl]
  · intro s hs
    rw [targets_of_unlink, if_pos hs]
  · intro s hs
    rw [targets_of_unlink, if_neg hs]
  · intro s
    rw [targets_of_unlink]
    split_ifs with hc
    · exact Finset.not_mem_erase t _
    · intro hmem
      exact hc (hinv.2 s t hmem)

theorem unlink_frame_witness :
    Invariant (run [Op.link 0 0, Op.link 0 1]) ∧
    source_of (unlink_inner 0 (run [Op.link 0 0, Op.link 0 1])) 1 =
      source_of (run [Op.link 0 0, Op.link 0 1]) 1 ∧
    source_of (unlink_inner 0 (run [Op.link 0 0, Op.link 0 1])) 0 = none ∧
    0 ∉ targets_of (unlink_inner 0 (run [Op.link 0 0, Op.link 0 1])) 0 := by
  have hinv : Invariant (run [Op.link 0 0, Op.link 0 1]) :=
    invariant_runFrom OneToMany.empty _ invariant_empty
  have h := unlink_frame (run [Op.link 0 0, Op.link 0 1]) 0 hinv
  exact ⟨hinv, h.1 1 (by decide), h.2.1, h.2.2.2.2 0⟩

/-- C10: `link s t` lazily grows both sparse maps: any slot of index below
`s` absent from the forward map becomes an explicit empty set, any slot of
index below `t` absent from the backward map becomes an explicit `none`, and
after the call both maps are long enough that every such lower index is
present; the read accessors then return the empty set resp. `none` there. -/
theorem link_lazy_fill (st : OneToMany) (s t j : Nat) :
    (j < s → st.targets[j]? = none →
      (link_inner s t st).targets[j]? = some ∅ ∧
      targets_of (link_inner s t st) j = ∅) ∧
    (j < t → st.source[j]? = none →
      (link_inner s t st).source[j]? = some none ∧
      source_of (link_inner s t st) j = none) ∧
    s < (link_inner s t st).targets.length ∧
    t < (link_inner s t st).source.length := by
  refine ⟨?_, ?_, ?_, ?_⟩
  · intro hj hnone
    have h := getElem?_targets_link_low s t j st hj hnone
    exact ⟨h, by rw [targets_of, h]; rfl⟩
  · intro hj hnone
    have h := getElem?_source_link_low s t j st hj hnone
    exact ⟨h, by rw [source_of, h]; rfl⟩
  · rw [length_targets_link]
    omega
  · rw [length_source_link]
    omega

theorem link_lazy_fill_witness :
    ((1 : Nat) < 2 ∧ OneToMany.empty.targets[1]? = none ∧
      (link_inner 2 3 OneToMany.empty).targets[1]? = some ∅ ∧
      targets_of (link_inner 2 3 OneToMany.empty) 1 = ∅) ∧
    ((1 : Nat) < 3 ∧ OneToMany.empty.source[1]? = none ∧
      (link_inner 2 3 OneToMany.empty).source[1]? = some none ∧
      source_of (link_inner 2 3 OneToMany.empty) 1 = none) := by
  have h := link_lazy_fill OneToMany.empty 2 3 1
  have h1 := h.1 (by decide) (by decide)
  have h2 := h.2.1 (by decide) (by decide)
  exact ⟨⟨by decide, by decide, h1.1, h1.2⟩, ⟨by decide, by decide, h2.1, h2.2⟩⟩

end OneToManySpec
